import Mathlib

/-!
# xplane-feeder: the VEH1 packet writer and the InfluxDB sample converter

A shallow embedding of `xplane-feeder.go`.

* Bytes are natural numbers below 256.
* `xint` (Go `int32`) is an integer in `[-2^31, 2^31)`; the Go conversion
  `xint(n)` from the 64-bit `int` is `xint.ofInt`.
* `xdob` (Go `float64`) and `xflt` (Go `float32`) are IEEE-754 bit patterns,
  natural numbers below `2^64` and `2^32`; multiplication, narrowing and comparison
  are computed on the patterns and proved correctly rounded further down.
* The InfluxDB client is outside the program: `getInfluxData` takes the answer of
  `influxCl.Query` as its argument, and a decoded point is a list of `Value`s.
* `writeToXplane` reads the record through `unsafe.Pointer` as `[56]byte`.
  56 is the size of `VEH1` where `float64` is 8-byte aligned (the 64-bit Go
  ports): 4 bytes `p`, 4 bytes padding, 24 bytes `lat_lon_ele`, 12 bytes
  `psi_the_phi`, 12 bytes `gear_flap_vect`. The byte order of each field and
  the contents of the padding are properties of the host, gathered in `Host`.
-/

namespace XplaneFeeder

/-! ## Scalar types -/

/-- Go `type xchr byte`. -/
abbrev xchr := Nat

/-- Go `type xint int32`, as its integer value. -/
abbrev xint := Int

/-- Go `type xdob float64`, as its 64-bit pattern. -/
abbrev xdob := Nat

/-- Go `type xflt float32`, as its 32-bit pattern. -/
abbrev xflt := Nat

/-- The Go conversion `xint(n)` of an `int`: the low 32 bits, read as two's complement. -/
def xint.ofInt (n : Int) : Int := (n + 2 ^ 31) % 2 ^ 32 - 2 ^ 31

/-- A Go array `[3]T`. -/
structure Arr3 (α : Type) where
  e0 : α
  e1 : α
  e2 : α
deriving DecidableEq, Repr

/-- Go `type VEH1 struct`. -/
structure VEH1 where
  p : xint
  lat_lon_ele : Arr3 xdob
  psi_the_phi : Arr3 xflt
  gear_flap_vect : Arr3 xflt
deriving DecidableEq, Repr

/-! ## The in-memory image of a record -/

/-- Byte order of the machine the feeder runs on. -/
inductive ByteOrder where
  | littleEndian
  | bigEndian
deriving DecidableEq, Repr

/-- What the host contributes to the memory image of a `VEH1`: its byte order and
whatever the four padding bytes after `p` hold when the image is read. -/
structure Host where
  order : ByteOrder
  pad : Nat → Nat

/-- The `w` low-order bytes of `n`, least significant first. -/
def leBytes : Nat → Nat → List Nat
  | 0, _ => []
  | w + 1, n => n % 256 :: leBytes w (n / 256)

/-- The `w` bytes that hold the unsigned value `n` in memory. -/
def nativeBytes (o : ByteOrder) (w n : Nat) : List Nat :=
  match o with
  | .littleEndian => leBytes w n
  | .bigEndian => (leBytes w n).reverse

/-- The 32-bit word that stores an `xint`. -/
def xint.toWord (p : xint) : Nat := (p % 2 ^ 32).toNat

/-- Memory of a `[3]xdob`. -/
def Arr3.dobBytes (o : ByteOrder) (a : Arr3 xdob) : List Nat :=
  nativeBytes o 8 a.e0 ++ nativeBytes o 8 a.e1 ++ nativeBytes o 8 a.e2

/-- Memory of a `[3]xflt`. -/
def Arr3.fltBytes (o : ByteOrder) (a : Arr3 xflt) : List Nat :=
  nativeBytes o 4 a.e0 ++ nativeBytes o 4 a.e1 ++ nativeBytes o 4 a.e2

/-- The four padding bytes between `p` and `lat_lon_ele`. -/
def Host.padBytes (h : Host) : List Nat :=
  [h.pad 0 % 256, h.pad 1 % 256, h.pad 2 % 256, h.pad 3 % 256]

/-- The bytes of a `VEH1` value in memory, `*((*[56]byte)(unsafe.Pointer(&veh1)))`. -/
def VEH1.image (h : Host) (v : VEH1) : List Nat :=
  nativeBytes h.order 4 v.p.toWord ++ h.padBytes ++ v.lat_lon_ele.dobBytes h.order
    ++ v.psi_the_phi.fltBytes h.order ++ v.gear_flap_vect.fltBytes h.order

/-! ## `writeToXplane` -/

/-- Go builtin `copy(dst, src)`: the updated destination and the number of bytes copied. -/
def goCopy (dst src : List Nat) : List Nat × Nat :=
  let n := min dst.length src.length
  (src.take n ++ dst.drop n, n)

/-- The array literal `[61]byte{'V', 'E', 'H', '1', 0}`: five given elements, the rest zero. -/
def data_send_init : List Nat := [86, 69, 72, 49, 0] ++ List.replicate 56 0

/-- The array `data_send` after `copy(data_send[5:], pavio_arr[:])`. -/
def data_send (h : Host) (veh1 : VEH1) : List Nat :=
  let pavio_arr := veh1.image h
  data_send_init.take 5 ++ (goCopy (data_send_init.drop 5) pavio_arr).1

/-- The call `binary.Write(buf, binary.BigEndian, &data)` for a byte array: every element is
one byte wide, so the bytes are appended in index order and no error arises. -/
def binaryWrite (buf data : List Nat) : Except String (List Nat) :=
  .ok (buf ++ data)

/-- A UDP socket: the buffers handed to `Write` so far, oldest first, and whether the
operating system refuses the next write. -/
structure UDPConn where
  written : List (List Nat)
  refuses : Bool
deriving DecidableEq, Repr

/-- The method `(*net.UDPConn).Write`. -/
def UDPConn.Write (c : UDPConn) (b : List Nat) : UDPConn × Option String :=
  ({ c with written := c.written ++ [b] }, if c.refuses then some "write failed" else none)

/-- How a call ends: it returns, or the process exits with a status. -/
inductive Ending where
  | returned
  | exited (status : Nat)
deriving DecidableEq, Repr

/-- Go `checkError`. -/
def checkError (err : Option String) : Ending :=
  match err with
  | some _ => .exited 1
  | none => .returned

/-- Go `writeToXplane`: the socket afterwards and how the call ended. -/
def writeToXplane (h : Host) (udpcon : UDPConn) (veh1 : VEH1) : UDPConn × Ending :=
  match binaryWrite [] (data_send h veh1) with
  | .error _ => (udpcon, .exited 1)
  | .ok buf =>
    let r := udpcon.Write buf
    (r.1, checkError r.2)

/-- The buffer `buf.Bytes()` that `writeToXplane` passes to the socket. -/
def packet (h : Host) (veh1 : VEH1) : List Nat :=
  match binaryWrite [] (data_send h veh1) with
  | .error _ => []
  | .ok buf => buf

/-- A little-endian 64-bit host whose padding bytes are zero. -/
def amd64 : Host := ⟨.littleEndian, fun _ => 0⟩

/-- The `w` bytes of a buffer that start at offset `off`. -/
def slice (off w : Nat) (l : List Nat) : List Nat := (l.drop off).take w

/-- The value of a byte string, least significant byte first. -/
def fromLE : List Nat → Nat
  | [] => 0
  | b :: bs => b + 256 * fromLE bs

/-- The unsigned value that `bs` holds in byte order `o`. -/
def decodeWord (o : ByteOrder) (bs : List Nat) : Nat :=
  match o with
  | .littleEndian => fromLE bs
  | .bigEndian => fromLE bs.reverse

/-- The `xint` stored in a 32-bit word. -/
def xint.ofWord (w : Nat) : Int := if w < 2 ^ 31 then (w : Int) else (w : Int) - 2 ^ 32

/-- Reading a packet by the layout table of the specification: big-endian fields, the
vehicle id at offset 5, latitude, longitude and altitude at 9, 17 and 25, the six 32-bit
floats from offset 33 on. -/
def decodeTable (pkt : List Nat) : VEH1 :=
  let f := fun off w => decodeWord .bigEndian (slice off w pkt)
  ⟨xint.ofWord (f 5 4), ⟨f 9 8, f 17 8, f 25 8⟩, ⟨f 33 4, f 37 4, f 41 4⟩,
    ⟨f 45 4, f 49 4, f 53 4⟩⟩

/-- Reading a packet by the layout of the memory image, in byte order `o`: the vehicle id
at offset 5, latitude, longitude and altitude at 13, 21 and 29, the six 32-bit floats from
offset 37 on. -/
def decodeImage (o : ByteOrder) (pkt : List Nat) : VEH1 :=
  let f := fun off w => decodeWord o (slice off w pkt)
  ⟨xint.ofWord (f 5 4), ⟨f 13 8, f 21 8, f 29 8⟩, ⟨f 37 4, f 41 4, f 45 4⟩,
    ⟨f 49 4, f 53 4, f 57 4⟩⟩

/-- A record whose fields fit their Go types. -/
def VEH1.WellFormed (v : VEH1) : Prop :=
  (-2 ^ 31 ≤ v.p ∧ v.p < 2 ^ 31) ∧
  (v.lat_lon_ele.e0 < 2 ^ 64 ∧ v.lat_lon_ele.e1 < 2 ^ 64 ∧ v.lat_lon_ele.e2 < 2 ^ 64) ∧
  (v.psi_the_phi.e0 < 2 ^ 32 ∧ v.psi_the_phi.e1 < 2 ^ 32 ∧ v.psi_the_phi.e2 < 2 ^ 32) ∧
  (v.gear_flap_vect.e0 < 2 ^ 32 ∧ v.gear_flap_vect.e1 < 2 ^ 32 ∧ v.gear_flap_vect.e2 < 2 ^ 32)

instance (v : VEH1) : Decidable v.WellFormed := by
  unfold VEH1.WellFormed
  infer_instance

/-- The record for vehicle 42 at latitude 47.6062, longitude -122.3321, altitude 10668.0 m,
heading 270.0. -/
def veh1_sample : VEH1 :=
  ⟨42, ⟨0x4047CD97F62B6AE8, 0xC05E9541205BC01A, 0x40C4D60000000000⟩, ⟨0x43870000, 0, 0⟩,
    ⟨0, 0, 0⟩⟩

/-- A socket on which nothing has been written. -/
def freshConn : UDPConn := ⟨[], false⟩

/-! ## IEEE-754 arithmetic on bit patterns

Go's `float64` multiplication, the conversion `float32(x)` of a `float64` and the comparison
`>` are the IEEE-754 operations with rounding to nearest, ties to even. A NaN operand comes
back quieted and an invalid product is the negative quiet NaN, as on amd64; Go leaves NaN
payloads open. -/

/-- An IEEE-754 binary format: widths of the exponent and fraction fields. -/
structure Fmt where
  ebits : Nat
  fbits : Nat

/-- The format of `float64`. -/
def binary64 : Fmt := ⟨11, 52⟩

/-- The format of `float32`. -/
def binary32 : Fmt := ⟨8, 23⟩

namespace Fmt

/-- Exponent bias. -/
def bias (F : Fmt) : Nat := 2 ^ (F.ebits - 1) - 1

/-- The all-ones exponent field, of infinities and NaNs. -/
def emax (F : Fmt) : Nat := 2 ^ F.ebits - 1

/-- Sign bit. -/
def sign (F : Fmt) (b : Nat) : Nat := b / 2 ^ (F.ebits + F.fbits) % 2

/-- Exponent field. -/
def expo (F : Fmt) (b : Nat) : Nat := b / 2 ^ F.fbits % 2 ^ F.ebits

/-- Fraction field. -/
def frac (F : Fmt) (b : Nat) : Nat := b % 2 ^ F.fbits

/-- Whether the pattern is a NaN. -/
def isNaN (F : Fmt) (b : Nat) : Bool := F.expo b == F.emax && F.frac b != 0

/-- Whether the pattern is an infinity. -/
def isInf (F : Fmt) (b : Nat) : Bool := F.expo b == F.emax && F.frac b == 0

/-- Whether the pattern is a zero. -/
def isZero (F : Fmt) (b : Nat) : Bool := F.expo b == 0 && F.frac b == 0

/-- The significand of a finite pattern, as an integer. -/
def mant (F : Fmt) (b : Nat) : Nat := if F.expo b = 0 then F.frac b else 2 ^ F.fbits + F.frac b

/-- The exponent of the last place of a finite pattern: its magnitude is `mant * 2 ^ qexp`. -/
def qexp (F : Fmt) (b : Nat) : Int := (max (F.expo b) 1 : Nat) - ((F.bias + F.fbits : Nat) : Int)

/-- The infinity of sign `s`. -/
def inf (F : Fmt) (s : Nat) : Nat := s * 2 ^ (F.ebits + F.fbits) + F.emax * 2 ^ F.fbits

/-- A NaN with its quiet bit set. -/
def quiet (F : Fmt) (b : Nat) : Nat := b % 2 ^ (F.ebits + F.fbits + 1) ||| 2 ^ (F.fbits - 1)

/-- The NaN produced by an invalid operation. -/
def indefinite (F : Fmt) : Nat := F.inf 1 + 2 ^ (F.fbits - 1)

/-- How often `n` can be halved before it drops below 2, trying at most `fuel` times. -/
def halvings : Nat → Nat → Nat
  | 0, _ => 0
  | fuel + 1, n => if n < 2 then 0 else halvings fuel (n / 2) + 1

/-- Position of the leading one bit of `m`. -/
def msb (m : Nat) : Nat := halvings m m

/-- The quotient `m / 2 ^ k` rounded to nearest, ties to even. -/
def rne (m k : Nat) : Nat :=
  let d := m / 2 ^ k
  let r := 2 * (m % 2 ^ k)
  if r > 2 ^ k ∨ (r = 2 ^ k ∧ d % 2 = 1) then d + 1 else d

/-- The pattern of the value nearest to `(-1) ^ s * m * 2 ^ e`. -/
def round (F : Fmt) (s m : Nat) (e : Int) : Nat :=
  let qmin : Int := 1 - ((F.bias + F.fbits : Nat) : Int)
  let q : Int := max (e + (msb m : Int) - (F.fbits : Int)) qmin
  let sig : Nat := if q ≤ e then m * 2 ^ (e - q).toNat else rne m (q - e).toNat
  let mag : Nat := (q - qmin).toNat * 2 ^ F.fbits + sig
  if m = 0 then s * 2 ^ (F.ebits + F.fbits)
  else if mag ≥ F.emax * 2 ^ F.fbits then F.inf s
  else s * 2 ^ (F.ebits + F.fbits) + mag

/-- The rational value of a finite pattern. -/
def value (F : Fmt) (b : Nat) : ℚ :=
  (if F.sign b = 1 then -1 else 1) * (F.mant b : ℚ) * 2 ^ F.qexp b

end Fmt

/-- Go `a * b` on `float64`. -/
def f64mul (a b : Nat) : Nat :=
  let F := binary64
  let s := (F.sign a + F.sign b) % 2
  if F.isNaN a then F.quiet a
  else if F.isNaN b then F.quiet b
  else if F.isInf a then (if F.isZero b then F.indefinite else F.inf s)
  else if F.isInf b then (if F.isZero a then F.indefinite else F.inf s)
  else F.round s (F.mant a * F.mant b) (F.qexp a + F.qexp b)

/-- A `float64` pattern as an integer that orders like the value (both zeros give 0). -/
def f64key (a : Nat) : Int :=
  let m : Int := (a % 2 ^ 63 : Nat)
  if binary64.sign a = 0 then m else -m

/-- Go `a > b` on `float64`. -/
def f64gt (a b : Nat) : Bool :=
  !binary64.isNaN a && !binary64.isNaN b && decide (f64key a > f64key b)

/-- The Go conversion `xdob(x)` of a `float64`: the same value. -/
def xdob.ofFloat64 (x : Nat) : xdob := x

/-- The Go conversion `xflt(x)` of a `float64`: the nearest `float32`. -/
def xflt.ofFloat64 (a : Nat) : xflt :=
  let F := binary64
  if F.isNaN a then binary32.inf (F.sign a) + (F.frac a / 2 ^ 29 ||| 2 ^ 22)
  else if F.isInf a then binary32.inf (F.sign a)
  else binary32.round (F.sign a) (F.mant a) (F.qexp a)

/-- The `float64` nearest to the literal `0.3048`. -/
def oneFeetInMeters : Nat := 0x3FD381D7DBF487FD

/-- The `float64` of the literal `1000.0`. -/
def f64_1000 : Nat := 0x408F400000000000

/-- The `float32` of the literal `0.0`. -/
def f32_0 : xflt := 0

/-! ## The InfluxDB result and the converter -/

/-- A value of type `interface{}` in a decoded point. -/
inductive Value where
  | float64 (bits : Nat)
  | str (s : String)
  | bool (b : Bool)
  | nil
deriving DecidableEq, Repr

/-- The run-time panics the feeder can raise. -/
inductive Panic where
  | indexOutOfRange
  | typeAssertion
deriving DecidableEq, Repr

/-- Result of code that may panic. -/
inductive Run (α : Type) where
  | ok (a : α)
  | panic (p : Panic)
deriving DecidableEq, Repr

/-- Sequencing: a panic ends the run. -/
def Run.bind {α β : Type} (r : Run α) (f : α → Run β) : Run β :=
  match r with
  | .ok a => f a
  | .panic p => .panic p

/-- Apply a function to the value of a run that did not panic. -/
def Run.map {α β : Type} (f : α → β) (r : Run α) : Run β :=
  r.bind (fun a => .ok (f a))

/-- Go `l[i]`. -/
def index {α : Type} (l : List α) (i : Nat) : Run α :=
  match l[i]? with
  | some x => .ok x
  | none => .panic .indexOutOfRange

/-- Go `v.(float64)`. -/
def assertFloat64 (v : Value) : Run Nat :=
  match v with
  | .float64 b => .ok b
  | _ => .panic .typeAssertion

/-- The InfluxDB client's `Series`. -/
structure Series where
  Name : String
  Columns : List String
  Points : List (List Value)
deriving DecidableEq, Repr

/-- Go `type InfluxResults []*client.Series`. -/
abbrev InfluxResults := List Series

/-- The expression `influxQueryResult[0].Points[0][i].(float64)`. -/
def column (influxQueryResult : InfluxResults) (i : Nat) : Run Nat :=
  (index influxQueryResult 0).bind fun s =>
  (index s.Points 0).bind fun row =>
  (index row i).bind assertFloat64

/-- Go `influxToVEH1`. -/
def influxToVEH1 (airplaneId : Int) (influxQueryResult : InfluxResults) : Run VEH1 :=
  (column influxQueryResult 2).bind fun a =>
  let alt := f64mul a oneFeetInMeters
  (column influxQueryResult 3).bind fun lat =>
  (column influxQueryResult 4).bind fun lon =>
  (column influxQueryResult 5).bind fun hdg =>
  let veh1 : VEH1 := ⟨xint.ofInt airplaneId,
    ⟨xdob.ofFloat64 lat, xdob.ofFloat64 lon, xdob.ofFloat64 alt⟩,
    ⟨xflt.ofFloat64 hdg, f32_0, f32_0⟩, ⟨f32_0, f32_0, f32_0⟩⟩
  let veh1 : VEH1 :=
    if f64gt alt f64_1000 then
      ⟨xint.ofInt airplaneId,
        ⟨xdob.ofFloat64 lat, xdob.ofFloat64 lon, xdob.ofFloat64 alt⟩,
        ⟨xflt.ofFloat64 hdg, f32_0, f32_0⟩, ⟨f32_0, f32_0, f32_0⟩⟩
    else veh1
  .ok veh1

/-- The converter as the specification words it: `influxToVEH1` without the altitude branch. -/
def influxToVEH1_ungated (airplaneId : Int) (influxQueryResult : InfluxResults) : Run VEH1 :=
  (column influxQueryResult 2).bind fun a =>
  let alt := f64mul a oneFeetInMeters
  (column influxQueryResult 3).bind fun lat =>
  (column influxQueryResult 4).bind fun lon =>
  (column influxQueryResult 5).bind fun hdg =>
  .ok ⟨xint.ofInt airplaneId,
    ⟨xdob.ofFloat64 lat, xdob.ofFloat64 lon, xdob.ofFloat64 alt⟩,
    ⟨xflt.ofFloat64 hdg, f32_0, f32_0⟩, ⟨f32_0, f32_0, f32_0⟩⟩

/-! ## `getInfluxData` -/

/-- How a call of `getInfluxData` ends: `log.Fatalf` ends the process, indexing may panic,
or the result is returned; with the lines logged by `log.Printf`. -/
inductive Fetch where
  | fatal
  | panicked (log : List String) (p : Panic)
  | returned (log : List String) (res : InfluxResults)
deriving DecidableEq, Repr

/-- Go `getInfluxData`, given what `influxCl.Query(query)` answered. -/
def getInfluxData (reply : Except String InfluxResults) : Fetch :=
  match reply with
  | .error _ => .fatal
  | .ok infRes =>
    let log := if infRes.length ≠ 1 then ["No series present?!"] else []
    match index infRes 0 with
    | .panic p => .panicked log p
    | .ok s =>
      let pointsCount := s.Points.length
      let _ := pointsCount
      .returned log infRes

/-- A series whose first point is the row `time, sequence_number` followed by altitude 35000.0
ft, latitude 47.6062, longitude -122.3321 and heading 270.0, in the positions the converter
reads. -/
def series_sample (name : String) : Series :=
  ⟨name, ["time", "sequence_number", "altitude", "lat", "lon", "track"],
    [[.float64 0x41D954FC40000000, .float64 0x3FF0000000000000, .float64 0x40E1170000000000,
      .float64 0x4047CD97F62B6AE8, .float64 0xC05E9541205BC01A, .float64 0x4070E00000000000]]⟩

/-! ## Facts about the packet -/

theorem leBytes_length (w n : Nat) : (leBytes w n).length = w := by
  induction w generalizing n with
  | zero => rfl
  | succ w ih => simp [leBytes, ih]

theorem nativeBytes_length (o : ByteOrder) (w n : Nat) : (nativeBytes o w n).length = w := by
  cases o <;> simp [nativeBytes, leBytes_length]

theorem image_length (h : Host) (v : VEH1) : (v.image h).length = 56 := by
  simp [VEH1.image, Arr3.dobBytes, Arr3.fltBytes, Host.padBytes, nativeBytes_length]

theorem data_send_eq (h : Host) (v : VEH1) : data_send h v = [86, 69, 72, 49, 0] ++ v.image h := by
  simp [data_send, goCopy, data_send_init, image_length]

theorem packet_eq (h : Host) (v : VEH1) : packet h v = [86, 69, 72, 49, 0] ++ v.image h := by
  simp [packet, binaryWrite, data_send_eq]

theorem written_eq (h : Host) (c : UDPConn) (v : VEH1) :
    (writeToXplane h c v).1.written = c.written ++ [packet h v] := by
  simp [writeToXplane, packet, binaryWrite, UDPConn.Write]

theorem fromLE_leBytes (w n : Nat) : fromLE (leBytes w n) = n % 256 ^ w := by
  induction w generalizing n with
  | zero => simp [leBytes, fromLE, Nat.mod_one]
  | succ w ih =>
    simp only [leBytes, fromLE, ih]
    rw [pow_succ, Nat.mul_comm (256 ^ w) 256, Nat.mod_mul]

theorem decodeWord_nativeBytes (o : ByteOrder) (w n : Nat) :
    decodeWord o (nativeBytes o w n) = n % 256 ^ w := by
  cases o <;> simp [decodeWord, nativeBytes, fromLE_leBytes]

theorem ofWord_toWord (p : Int) (h1 : -2 ^ 31 ≤ p) (h2 : p < 2 ^ 31) :
    xint.ofWord (xint.toWord p) = p := by
  unfold xint.ofWord xint.toWord
  have h3 : (0 : Int) ≤ p % 2 ^ 32 := Int.emod_nonneg _ (by norm_num)
  have h5 : (((p % 2 ^ 32).toNat : Nat) : Int) = p % 2 ^ 32 := Int.toNat_of_nonneg h3
  split_ifs with h
  · have h6 : (((p % 2 ^ 32).toNat : Nat) : Int) < 2 ^ 31 := by exact_mod_cast h
    show (((p % 2 ^ 32).toNat : Nat) : Int) = p
    rw [h5] at h6 ⊢
    omega
  · have h6 : ¬ (((p % 2 ^ 32).toNat : Nat) : Int) < 2 ^ 31 := by exact_mod_cast h
    show (((p % 2 ^ 32).toNat : Nat) : Int) - 2 ^ 32 = p
    rw [h5] at h6 ⊢
    omega

theorem slice_fields (h : Host) (v : VEH1) :
    slice 5 4 (packet h v) = nativeBytes h.order 4 v.p.toWord ∧
    (slice 13 8 (packet h v) = nativeBytes h.order 8 v.lat_lon_ele.e0 ∧
     slice 21 8 (packet h v) = nativeBytes h.order 8 v.lat_lon_ele.e1 ∧
     slice 29 8 (packet h v) = nativeBytes h.order 8 v.lat_lon_ele.e2) ∧
    (slice 37 4 (packet h v) = nativeBytes h.order 4 v.psi_the_phi.e0 ∧
     slice 41 4 (packet h v) = nativeBytes h.order 4 v.psi_the_phi.e1 ∧
     slice 45 4 (packet h v) = nativeBytes h.order 4 v.psi_the_phi.e2) ∧
    (slice 49 4 (packet h v) = nativeBytes h.order 4 v.gear_flap_vect.e0 ∧
     slice 53 4 (packet h v) = nativeBytes h.order 4 v.gear_flap_vect.e1 ∧
     slice 57 4 (packet h v) = nativeBytes h.order 4 v.gear_flap_vect.e2) := by
  rw [packet_eq]
  obtain ⟨o, pad⟩ := h
  cases o <;> exact ⟨rfl, ⟨rfl, rfl, rfl⟩, ⟨rfl, rfl, rfl⟩, ⟨rfl, rfl, rfl⟩⟩

theorem decodeImage_packet (h : Host) (v : VEH1) (hv : v.WellFormed) :
    decodeImage h.order (packet h v) = v := by
  obtain ⟨hp, ⟨ha, hb, hc⟩, ⟨hd, he, hf⟩, ⟨hg, hi, hj⟩⟩ := hv
  obtain ⟨s0, ⟨s1, s2, s3⟩, ⟨s4, s5, s6⟩, ⟨s7, s8, s9⟩⟩ := slice_fields h v
  obtain ⟨p, ⟨a, b, c⟩, ⟨d, e, f⟩, ⟨g, i, j⟩⟩ := v
  simp only [decodeImage, s0, s1, s2, s3, s4, s5, s6, s7, s8, s9, decodeWord_nativeBytes]
  simp only at hp ha hb hc hd he hf hg hi hj
  rw [show (256 : Nat) ^ 8 = 2 ^ 64 by norm_num, show (256 : Nat) ^ 4 = 2 ^ 32 by norm_num,
    Nat.mod_eq_of_lt ha, Nat.mod_eq_of_lt hb, Nat.mod_eq_of_lt hc, Nat.mod_eq_of_lt hd,
    Nat.mod_eq_of_lt he, Nat.mod_eq_of_lt hf, Nat.mod_eq_of_lt hg, Nat.mod_eq_of_lt hi,
    Nat.mod_eq_of_lt hj]
  have hw : xint.toWord p % 2 ^ 32 = xint.toWord p := by
    apply Nat.mod_eq_of_lt
    unfold xint.toWord
    have h3 : (p : Int) % 2 ^ 32 < 2 ^ 32 := Int.emod_lt_of_pos _ (by norm_num)
    omega
  rw [hw, ofWord_toWord p hp.1 hp.2]

/-! ## Claims about `writeToXplane` -/

/-- C1, as amended: for every host, socket and record, the one buffer `writeToXplane` hands
to the socket write has length exactly 61: the 5-byte header and the 56-byte memory image. -/
theorem writeToXplane_packet_length (h : Host) (c : UDPConn) (v : VEH1) :
    (writeToXplane h c v).1.written = c.written ++ [packet h v] ∧
    (packet h v).length = 61 := by
  refine ⟨written_eq h c v, ?_⟩
  rw [packet_eq]
  simp [image_length]

/-- C1 refuted as stated: for the sample record on an amd64 host the buffer handed to the
socket write does not have length 57 (it has length 61). -/
theorem writeToXplane_packet_length_ne_57 :
    (writeToXplane amd64 freshConn veh1_sample).1.written.map List.length = [61] ∧
    (writeToXplane amd64 freshConn veh1_sample).1.written.map List.length ≠ [57] := by
  decide

/-- C4: for every host, socket and record, the packet handed to the socket starts with the
ASCII bytes of V, E, H, 1 at offsets 0..3 and a zero byte at offset 4. -/
theorem writeToXplane_header (h : Host) (c : UDPConn) (v : VEH1) :
    (writeToXplane h c v).1.written = c.written ++ [packet h v] ∧
    slice 0 4 (packet h v) = ['V'.toNat, 'E'.toNat, 'H'.toNat, '1'.toNat] ∧
    slice 4 1 (packet h v) = [0] := by
  refine ⟨written_eq h c v, ?_, ?_⟩ <;> rw [packet_eq] <;> rfl

/-- C8: one call of `writeToXplane` adds exactly one write to the socket, and the buffer of
that write is the whole packet: the five header bytes followed by the complete 56-byte image
of the record, 61 bytes in all; this holds whether or not the socket reports an error. -/
theorem writeToXplane_single_write (h : Host) (c : UDPConn) (v : VEH1) :
    (writeToXplane h c v).1.written = c.written ++ [[86, 69, 72, 49, 0] ++ v.image h] ∧
    (writeToXplane h c v).1.written.length = c.written.length + 1 ∧
    ([86, 69, 72, 49, 0] ++ v.image h).length = 61 := by
  have hw := written_eq h c v
  rw [packet_eq] at hw
  refine ⟨hw, ?_, ?_⟩
  · rw [hw]; simp
  · simp [image_length]

/-- C2, as amended: bytes 5..60 of the packet are a copy of the in-memory image of the
record, so offsets 5..8 hold the two's-complement word of `p` in the byte order of the host;
on a little-endian host the least significant byte is at offset 5. -/
theorem writeToXplane_vehicle_id_bytes (h : Host) (c : UDPConn) (v : VEH1) :
    (writeToXplane h c v).1.written = c.written ++ [packet h v] ∧
    slice 5 56 (packet h v) = v.image h ∧
    slice 5 4 (packet h v) = nativeBytes h.order 4 v.p.toWord ∧
    (∀ pad, slice 5 4 (packet ⟨.littleEndian, pad⟩ v) =
      [v.p.toWord % 256, v.p.toWord / 256 % 256, v.p.toWord / 256 / 256 % 256,
        v.p.toWord / 256 / 256 / 256 % 256]) := by
  refine ⟨written_eq h c v, ?_, (slice_fields h v).1, ?_⟩
  · rw [packet_eq]
    have := image_length h v
    simp [slice, ← this]
  · intro pad
    rw [packet_eq]
    rfl

/-- C2 refuted as stated: for vehicle id 42 on an amd64 host, offsets 5..8 of the packet
hold 42, 0, 0, 0, which is not the big-endian encoding 0, 0, 0, 42. -/
theorem writeToXplane_vehicle_id_not_big_endian :
    (writeToXplane amd64 freshConn veh1_sample).1.written.map (slice 5 4) = [[42, 0, 0, 0]] ∧
    (writeToXplane amd64 freshConn veh1_sample).1.written.map (slice 5 4) ≠
      [nativeBytes .bigEndian 4 veh1_sample.p.toWord] := by
  decide

/-- C3, as amended: for every host and every well-formed record, reading the packet by the
layout of the memory image (vehicle id at offset 5, float64 at 13, 21, 29, float32 at 37,
41, 45, 49, 53, 57, all in the byte order of the host) recovers every field of the record. -/
theorem writeToXplane_roundtrip (h : Host) (c : UDPConn) (v : VEH1) (hv : v.WellFormed) :
    (writeToXplane h c v).1.written = c.written ++ [packet h v] ∧
    decodeImage h.order (packet h v) = v :=
  ⟨written_eq h c v, decodeImage_packet h v hv⟩

/-- C3 witness: the sample record is well formed and is recovered from its amd64 packet;
its heading 270.0 is read back from offsets 37..40. -/
theorem writeToXplane_roundtrip_witness :
    veh1_sample.WellFormed ∧
    decodeImage amd64.order (packet amd64 veh1_sample) = veh1_sample :=
  have hv : veh1_sample.WellFormed := by decide
  ⟨hv, (writeToXplane_roundtrip amd64 freshConn veh1_sample hv).2⟩

/-- C3 refuted as stated: reading the sample record's amd64 packet by the layout table
(big-endian, vehicle id at 5, float64 at 9, 17, 25, heading at 33) returns neither the
vehicle id 42 nor the heading 270.0. -/
theorem writeToXplane_table_decode_fails :
    (writeToXplane amd64 freshConn veh1_sample).1.written.map
        (fun b => (decodeTable b).p) ≠ [veh1_sample.p] ∧
    (writeToXplane amd64 freshConn veh1_sample).1.written.map
        (fun b => (decodeTable b).psi_the_phi.e0) ≠ [veh1_sample.psi_the_phi.e0] := by
  decide

/-! ## Facts about the floating-point operations -/

theorem halvings_spec (fuel n : Nat) (h : n ≤ fuel) (hn : 0 < n) :
    2 ^ Fmt.halvings fuel n ≤ n ∧ n < 2 ^ (Fmt.halvings fuel n + 1) := by
  induction fuel generalizing n with
  | zero => omega
  | succ fuel ih =>
    unfold Fmt.halvings
    split_ifs with h2
    · simp; omega
    · obtain ⟨h3, h4⟩ := ih (n / 2) (by omega) (by omega)
      rw [pow_succ] at h4 ⊢
      rw [pow_succ]
      constructor <;> omega

/-- The fuel of `msb` suffices: `msb m` is the position of the leading one bit. -/
theorem msb_spec (m : Nat) (hm : 0 < m) : 2 ^ Fmt.msb m ≤ m ∧ m < 2 ^ (Fmt.msb m + 1) :=
  halvings_spec m m (le_refl m) hm

/-- The quotient computed by `rne` is within half of the exact quotient. -/
theorem rne_spec (m k : Nat) :
    2 * (Fmt.rne m k * 2 ^ k) ≤ 2 * m + 2 ^ k ∧ 2 * m ≤ 2 * (Fmt.rne m k * 2 ^ k) + 2 ^ k := by
  have h1 := Nat.div_add_mod m (2 ^ k)
  have h2 : m % 2 ^ k < 2 ^ k := Nat.mod_lt _ (by positivity)
  unfold Fmt.rne
  simp only
  split_ifs with h
  · rw [Nat.add_mul]
    rw [Nat.mul_comm (2 ^ k)] at h1
    constructor <;> omega
  · rw [Nat.mul_comm (2 ^ k)] at h1
    constructor <;> omega

theorem rne_bounds (m k : Nat) : m / 2 ^ k ≤ Fmt.rne m k ∧ Fmt.rne m k ≤ m / 2 ^ k + 1 := by
  unfold Fmt.rne
  simp only
  split_ifs <;> omega

theorem sig_exact (m : Nat) (e q : Int) (h : q ≤ e) :
    ((m * 2 ^ (e - q).toNat : Nat) : ℚ) * 2 ^ q = m * 2 ^ e := by
  have ht : (((e - q).toNat : Nat) : Int) = e - q := Int.toNat_of_nonneg (by omega)
  have h2 : (2 : ℚ) ^ e = 2 ^ (((e - q).toNat : Nat) : Int) * 2 ^ q := by
    rw [← zpow_add₀ (by norm_num : (2 : ℚ) ≠ 0), ht]
    congr 1
    omega
  rw [h2, zpow_natCast]
  push_cast
  ring

theorem sig_rounded (m : Nat) (e q : Int) (h : e < q) :
    2 * |((Fmt.rne m (q - e).toNat : Nat) : ℚ) * 2 ^ q - m * 2 ^ e| ≤ 2 ^ q := by
  have ht : (((q - e).toNat : Nat) : Int) = q - e := Int.toNat_of_nonneg (by omega)
  have h2 : (2 : ℚ) ^ q = 2 ^ (((q - e).toNat : Nat) : Int) * 2 ^ e := by
    rw [← zpow_add₀ (by norm_num : (2 : ℚ) ≠ 0), ht]
    congr 1
    omega
  obtain ⟨h3, h4⟩ := rne_spec m (q - e).toNat
  have h5 : (0 : ℚ) < 2 ^ e := by positivity
  rw [h2, zpow_natCast]
  generalize (q - e).toNat = k at h3 h4
  generalize Fmt.rne m k = r at h3 h4
  have h3' : (2 : ℚ) * (r * 2 ^ k) ≤ 2 * m + 2 ^ k := by exact_mod_cast h3
  have h4' : (2 : ℚ) * m ≤ 2 * (r * 2 ^ k) + 2 ^ k := by exact_mod_cast h4
  have h6 : (r : ℚ) * (2 ^ k * 2 ^ e) - m * 2 ^ e = (r * 2 ^ k - m) * 2 ^ e := by ring
  rw [h6, abs_mul, abs_of_pos h5, ← mul_assoc]
  apply mul_le_mul_of_nonneg_right _ h5.le
  have h7 : (2 : ℚ) * |(r : ℚ) * 2 ^ k - m| = |2 * ((r : ℚ) * 2 ^ k) - 2 * (m : ℚ)| := by
    rw [← mul_sub, abs_mul]
    norm_num
  rw [h7, abs_le]
  constructor <;> linarith

theorem sig_bounds64 (m : Nat) (e q : Int) (hm : 0 < m)
    (hq : q = max (e + (Fmt.msb m : Int) - 52) (-1074)) :
    (if q ≤ e then m * 2 ^ (e - q).toNat else Fmt.rne m (q - e).toNat) ≤ 2 ^ 53 ∧
    (-1074 < q → 2 ^ 52 ≤ (if q ≤ e then m * 2 ^ (e - q).toNat else Fmt.rne m (q - e).toNat)) := by
  obtain ⟨hL1, hL2⟩ := msb_spec m hm
  generalize Fmt.msb m = L at hq hL1 hL2
  have hq1 : e + (L : Int) - 52 ≤ q := by omega
  have hq3 : -1074 < q → q = e + (L : Int) - 52 := by omega
  split_ifs with hqe
  · have ht : (((e - q).toNat : Nat) : Int) = e - q := Int.toNat_of_nonneg (by omega)
    generalize (e - q).toNat = t at ht
    constructor
    · calc m * 2 ^ t ≤ 2 ^ (L + 1) * 2 ^ t := Nat.mul_le_mul_right _ hL2.le
        _ = 2 ^ (L + 1 + t) := (pow_add 2 (L + 1) t).symm
        _ ≤ 2 ^ 53 := Nat.pow_le_pow_right (by norm_num) (by omega)
    · intro h
      have h2 := hq3 h
      have h3 : L + t = 52 := by omega
      calc 2 ^ 52 = 2 ^ (L + t) := by rw [h3]
        _ = 2 ^ L * 2 ^ t := pow_add 2 L t
        _ ≤ m * 2 ^ t := Nat.mul_le_mul_right _ hL1
  · have ht : (((q - e).toNat : Nat) : Int) = q - e := Int.toNat_of_nonneg (by omega)
    generalize (q - e).toNat = k at ht
    obtain ⟨hr1, hr2⟩ := rne_bounds m k
    constructor
    · have h1 : m < 2 ^ 53 * 2 ^ k := by
        calc m < 2 ^ (L + 1) := hL2
          _ ≤ 2 ^ (53 + k) := Nat.pow_le_pow_right (by norm_num) (by omega)
          _ = 2 ^ 53 * 2 ^ k := pow_add 2 53 k
      have h2 : m / 2 ^ k < 2 ^ 53 := Nat.div_lt_of_lt_mul (by rw [Nat.mul_comm]; exact h1)
      omega
    · intro h
      have h2 := hq3 h
      have h3 : L = 52 + k := by omega
      have h4 : 2 ^ 52 * 2 ^ k ≤ m := by
        calc 2 ^ 52 * 2 ^ k = 2 ^ (52 + k) := (pow_add 2 52 k).symm
          _ = 2 ^ L := by rw [h3]
          _ ≤ m := hL1
      have h5 : 2 ^ 52 ≤ m / 2 ^ k := (Nat.le_div_iff_mul_le (by positivity)).mpr h4
      omega

theorem value_fields64 (R x f : Nat) (hx : binary64.expo R = x) (hf : binary64.frac R = f) :
    (binary64.mant R : ℚ) * 2 ^ binary64.qexp R =
      ((if x = 0 then f else 2 ^ 52 + f : Nat) : ℚ) * 2 ^ (((max x 1 : Nat) : Int) - 1075) := by
  unfold Fmt.mant Fmt.qexp
  rw [hx, hf]
  simp only [binary64, Fmt.bias]
  norm_num

theorem decode64 (s E sig : Nat) (hs : s ≤ 1) (h1 : sig ≤ 2 ^ 53) (h2 : sig < 2 ^ 52 → E = 0)
    (h3 : E * 2 ^ 52 + sig < 2047 * 2 ^ 52) :
    binary64.sign (s * 2 ^ 63 + (E * 2 ^ 52 + sig)) = s ∧
    binary64.expo (s * 2 ^ 63 + (E * 2 ^ 52 + sig)) < 2047 ∧
    (E : Int) - 1074 ≤ binary64.qexp (s * 2 ^ 63 + (E * 2 ^ 52 + sig)) ∧
    (binary64.mant (s * 2 ^ 63 + (E * 2 ^ 52 + sig)) : ℚ) *
        2 ^ binary64.qexp (s * 2 ^ 63 + (E * 2 ^ 52 + sig)) =
      sig * 2 ^ ((E : Int) - 1074) := by
  have hsign : binary64.sign (s * 2 ^ 63 + (E * 2 ^ 52 + sig)) = s := by
    simp only [Fmt.sign, binary64]
    omega
  have hfrac : binary64.frac (s * 2 ^ 63 + (E * 2 ^ 52 + sig)) = sig % 2 ^ 52 := by
    simp only [Fmt.frac, binary64]
    omega
  have hexpo : binary64.expo (s * 2 ^ 63 + (E * 2 ^ 52 + sig)) = E + sig / 2 ^ 52 := by
    simp only [Fmt.expo, binary64]
    omega
  have hqexp : (E : Int) - 1074 ≤ binary64.qexp (s * 2 ^ 63 + (E * 2 ^ 52 + sig)) := by
    unfold Fmt.qexp
    rw [hexpo]
    simp only [binary64, Fmt.bias]
    rcases Nat.lt_or_ge sig (2 ^ 52) with h | h
    · have hE := h2 h
      omega
    · have : 1 ≤ sig / 2 ^ 52 := by omega
      omega
  refine ⟨hsign, by rw [hexpo]; omega, hqexp, ?_⟩
  rw [value_fields64 _ _ _ hexpo hfrac]
  rcases Nat.lt_or_ge sig (2 ^ 52) with h | h
  · have hE := h2 h
    subst hE
    have a1 : 0 + sig / 2 ^ 52 = 0 := by omega
    have a2 : sig % 2 ^ 52 = sig := by omega
    rw [a1, a2]
    norm_num
  · rcases Nat.lt_or_ge sig (2 ^ 53) with h' | h'
    · have a1 : E + sig / 2 ^ 52 = E + 1 := by omega
      have a2 : 2 ^ 52 + sig % 2 ^ 52 = sig := by omega
      rw [a1, if_neg (by omega), a2]
      congr 2
      have : max (E + 1) 1 = E + 1 := by omega
      rw [this]
      push_cast
      ring
    · have hs53 : sig = 2 ^ 53 := by omega
      subst hs53
      have a1 : E + 2 ^ 53 / 2 ^ 52 = E + 2 := by omega
      have a2 : 2 ^ 52 + 2 ^ 53 % 2 ^ 52 = 2 ^ 52 := by omega
      rw [a1, if_neg (by omega), a2]
      have : max (E + 2) 1 = E + 2 := by omega
      rw [this]
      have h5 : (((E + 2 : Nat) : Int) - 1075) = ((E : Int) - 1074) + 1 := by
        push_cast
        ring
      rw [h5, zpow_add₀ (by norm_num : (2 : ℚ) ≠ 0), zpow_one]
      push_cast
      ring

theorem round64_eq (s m : Nat) (e : Int) :
    binary64.round s m e =
      if m = 0 then s * 2 ^ 63
      else if
        2047 * 2 ^ 52 ≤ (max (e + (Fmt.msb m : Int) - 52) (-1074) - (-1074)).toNat * 2 ^ 52 +
          (if max (e + (Fmt.msb m : Int) - 52) (-1074) ≤ e
            then m * 2 ^ (e - max (e + (Fmt.msb m : Int) - 52) (-1074)).toNat
            else Fmt.rne m (max (e + (Fmt.msb m : Int) - 52) (-1074) - e).toNat)
      then binary64.inf s
      else s * 2 ^ 63 +
        ((max (e + (Fmt.msb m : Int) - 52) (-1074) - (-1074)).toNat * 2 ^ 52 +
          (if max (e + (Fmt.msb m : Int) - 52) (-1074) ≤ e
            then m * 2 ^ (e - max (e + (Fmt.msb m : Int) - 52) (-1074)).toNat
            else Fmt.rne m (max (e + (Fmt.msb m : Int) - 52) (-1074) - e).toNat)) := by
  rfl

/-- Rounding to `float64` is correct: unless it overflows to infinity, the result has the
requested sign, is finite, and its value is within half a unit in its last place of
`m * 2 ^ e`. -/
theorem round64_spec (s m : Nat) (e : Int) (hs : s ≤ 1) (hm : 0 < m) :
    binary64.round s m e = binary64.inf s ∨
    (binary64.sign (binary64.round s m e) = s ∧
      binary64.expo (binary64.round s m e) < 2047 ∧
      2 * |(binary64.mant (binary64.round s m e) : ℚ) * 2 ^ binary64.qexp (binary64.round s m e)
          - m * 2 ^ e| ≤ 2 ^ binary64.qexp (binary64.round s m e)) := by
  rw [round64_eq, if_neg (by omega)]
  generalize hq : max (e + (Fmt.msb m : Int) - 52) (-1074) = q
  obtain ⟨hb1, hb2⟩ := sig_bounds64 m e q hm hq.symm
  have hacc : 2 * |(((if q ≤ e then m * 2 ^ (e - q).toNat else Fmt.rne m (q - e).toNat : Nat) : ℚ))
      * 2 ^ q - m * 2 ^ e| ≤ 2 ^ q := by
    split_ifs with h
    · rw [sig_exact m e q h]
      simp
      positivity
    · exact sig_rounded m e q (by omega)
  generalize (if q ≤ e then m * 2 ^ (e - q).toNat else Fmt.rne m (q - e).toNat) = sig
    at hb1 hb2 hacc
  have hq2 : -1074 ≤ q := by omega
  have hE : (((q - (-1074)).toNat : Nat) : Int) = q + 1074 := by
    rw [Int.toNat_of_nonneg (by omega)]
    ring
  generalize (q - (-1074)).toNat = E at hE
  split_ifs with hov
  · exact Or.inl rfl
  · right
    obtain ⟨d1, d2, d3, d4⟩ := decode64 s E sig hs hb1 (fun h => by
      by_contra hne
      have : -1074 < q := by omega
      have := hb2 this
      omega) (by omega)
    refine ⟨d1, d2, ?_⟩
    rw [d4]
    have hEq : (E : Int) - 1074 = q := by omega
    rw [hEq] at d3 ⊢
    refine le_trans hacc ?_
    exact zpow_le_zpow_right₀ (by norm_num) d3

theorem f64mul_finite (a b : Nat) (ha : binary64.expo a < 2047) (hb : binary64.expo b < 2047) :
    f64mul a b = binary64.round ((binary64.sign a + binary64.sign b) % 2)
      (binary64.mant a * binary64.mant b) (binary64.qexp a + binary64.qexp b) := by
  have e1 : binary64.emax = 2047 := rfl
  have na : binary64.isNaN a = false := by simp [Fmt.isNaN, e1]; omega
  have nb : binary64.isNaN b = false := by simp [Fmt.isNaN, e1]; omega
  have ia : binary64.isInf a = false := by simp [Fmt.isInf, e1]; omega
  have ib : binary64.isInf b = false := by simp [Fmt.isInf, e1]; omega
  simp [f64mul, na, nb, ia, ib]

/-- Multiplication of finite `float64` values is correctly rounded: unless the product
overflows to infinity, the result is finite and within half a unit in its last place of
the exact product. -/
theorem f64mul_spec (a b : Nat) (ha : binary64.expo a < 2047) (hb : binary64.expo b < 2047) :
    f64mul a b = binary64.inf ((binary64.sign a + binary64.sign b) % 2) ∨
    (binary64.expo (f64mul a b) < 2047 ∧
      2 * |binary64.value (f64mul a b) - binary64.value a * binary64.value b|
        ≤ 2 ^ binary64.qexp (f64mul a b)) := by
  rw [f64mul_finite a b ha hb]
  have hsa : binary64.sign a < 2 := Nat.mod_lt _ (by norm_num)
  have hsb : binary64.sign b < 2 := Nat.mod_lt _ (by norm_num)
  have hsgn : ((if (binary64.sign a + binary64.sign b) % 2 = 1 then -1 else 1 : ℚ)) =
      (if binary64.sign a = 1 then -1 else 1) * (if binary64.sign b = 1 then -1 else 1) := by
    generalize binary64.sign a = x at hsa
    generalize binary64.sign b = y at hsb
    interval_cases x <;> interval_cases y <;> norm_num
  generalize hs : (binary64.sign a + binary64.sign b) % 2 = s at hsgn
  have hs1 : s ≤ 1 := by omega
  rcases Nat.eq_zero_or_pos (binary64.mant a * binary64.mant b) with h0 | hpos
  · right
    rw [h0, round64_eq, if_pos rfl]
    have hx : binary64.expo (s * 2 ^ 63) = 0 := by
      simp only [Fmt.expo, binary64]
      omega
    have hf : binary64.frac (s * 2 ^ 63) = 0 := by
      simp only [Fmt.frac, binary64]
      omega
    have hv : binary64.value (s * 2 ^ 63) = 0 := by
      unfold Fmt.value
      rw [mul_assoc, value_fields64 _ _ _ hx hf]
      simp
    have hp : binary64.value a * binary64.value b = 0 := by
      unfold Fmt.value
      have : (binary64.mant a : ℚ) * (binary64.mant b : ℚ) = 0 := by exact_mod_cast h0
      rcases mul_eq_zero.mp this with h | h <;> simp [h]
    refine ⟨by rw [hx]; norm_num, ?_⟩
    rw [hv, hp]
    simp
    positivity
  · rcases round64_spec s _ (binary64.qexp a + binary64.qexp b) hs1 hpos with h | ⟨h1, h2, h3⟩
    · exact Or.inl h
    · right
      refine ⟨h2, ?_⟩
      generalize binary64.round s (binary64.mant a * binary64.mant b)
        (binary64.qexp a + binary64.qexp b) = R at h1 h2 h3
      have hv : binary64.value R - binary64.value a * binary64.value b =
          (if s = 1 then -1 else 1) * ((binary64.mant R : ℚ) * 2 ^ binary64.qexp R -
            ((binary64.mant a * binary64.mant b : Nat) : ℚ) *
              2 ^ (binary64.qexp a + binary64.qexp b)) := by
        unfold Fmt.value
        rw [h1, hsgn, zpow_add₀ (by norm_num : (2 : ℚ) ≠ 0)]
        push_cast
        ring
      rw [hv, abs_mul]
      have : |(if s = 1 then -1 else 1 : ℚ)| = 1 := by split_ifs <;> simp
      rw [this, one_mul]
      exact h3

theorem round64_no_overflow (s m : Nat) (e : Int) (hm : m < 2 ^ 106) (he : e ≤ 917) :
    binary64.round s m e ≠ binary64.inf s := by
  have hinf : binary64.inf s = s * 2 ^ 63 + 2047 * 2 ^ 52 := rfl
  rw [round64_eq, hinf]
  rcases Nat.eq_zero_or_pos m with h0 | hpos
  · rw [if_pos h0]
    omega
  · rw [if_neg (by omega)]
    have hmsb : Fmt.msb m < 106 := by
      by_contra hge
      have h1 : 2 ^ 106 ≤ 2 ^ Fmt.msb m := Nat.pow_le_pow_right (by norm_num) (by omega)
      have h2 := (msb_spec m hpos).1
      omega
    generalize hq : max (e + (Fmt.msb m : Int) - 52) (-1074) = q
    obtain ⟨hb1, -⟩ := sig_bounds64 m e q hpos hq.symm
    generalize (if q ≤ e then m * 2 ^ (e - q).toNat else Fmt.rne m (q - e).toNat) = sig at hb1
    have hE : (q - (-1074)).toNat ≤ 2044 := by omega
    generalize (q - (-1074)).toNat = E at hE
    split_ifs with hov <;> omega

/-- Converting a finite altitude never overflows: the product with `oneFeetInMeters` is
finite and within half a unit in its last place of the exact product of the two values. -/
theorem f64mul_oneFeetInMeters_spec (a : Nat) (ha : binary64.expo a < 2047) :
    binary64.expo (f64mul a oneFeetInMeters) < 2047 ∧
    2 * |binary64.value (f64mul a oneFeetInMeters) -
        binary64.value a * binary64.value oneFeetInMeters|
      ≤ 2 ^ binary64.qexp (f64mul a oneFeetInMeters) := by
  have hc : binary64.expo oneFeetInMeters < 2047 := by decide
  rcases f64mul_spec a oneFeetInMeters ha hc with h | h
  · exfalso
    rw [f64mul_finite a oneFeetInMeters ha hc] at h
    refine round64_no_overflow _ _ _ ?_ ?_ h
    · have h1 : binary64.mant a < 2 ^ 53 := by
        have hf : binary64.frac a < 2 ^ 52 := Nat.mod_lt _ (by norm_num)
        unfold Fmt.mant
        split_ifs
        · omega
        · have : binary64.fbits = 52 := rfl
          rw [this]
          omega
      have h2 : binary64.mant oneFeetInMeters = 5490788665690109 := by decide
      rw [h2]
      omega
    · have h2 : binary64.qexp oneFeetInMeters = -54 := by decide
      have h3 : binary64.qexp a ≤ 971 := by
        unfold Fmt.qexp
        have : ((binary64.bias + binary64.fbits : Nat) : Int) = 1075 := rfl
        rw [this]
        omega
      omega
  · exact h

/-- The constant `oneFeetInMeters` has the value `5490788665690109 / 2 ^ 54`, which is
less than half a unit in the last place away from 0.3048. -/
theorem oneFeetInMeters_value :
    binary64.value oneFeetInMeters = 5490788665690109 / 2 ^ 54 ∧
    2 * |binary64.value oneFeetInMeters - 3048 / 10000| < 1 / 2 ^ 54 := by
  have h : binary64.value oneFeetInMeters = 5490788665690109 / 2 ^ 54 := by
    have hx : binary64.expo oneFeetInMeters = 1021 := by decide
    have hf : binary64.frac oneFeetInMeters = 987189038319613 := by decide
    have hs : binary64.sign oneFeetInMeters = 0 := by decide
    unfold Fmt.value
    rw [mul_assoc, value_fields64 _ _ _ hx hf, hs]
    norm_num
  refine ⟨h, ?_⟩
  have hd : (5490788665690109 / 2 ^ 54 - 3048 / 10000 : ℚ) = 173 / 11258999068426240000 := by
    norm_num
  rw [h, hd, abs_of_pos (by norm_num)]
  norm_num

/-! ## Claims about `influxToVEH1` and `getInfluxData` -/

theorem influxToVEH1_row (airplaneId : Int) (name : String) (cols : List String)
    (t seq : Value) (a la lo hd : Nat) (extra : List Value) (more : List (List Value))
    (rest : List Series) :
    influxToVEH1 airplaneId
      (⟨name, cols,
        (t :: seq :: .float64 a :: .float64 la :: .float64 lo :: .float64 hd :: extra) :: more⟩
        :: rest) =
    .ok ⟨xint.ofInt airplaneId, ⟨la, lo, f64mul a oneFeetInMeters⟩,
      ⟨xflt.ofFloat64 hd, 0, 0⟩, ⟨0, 0, 0⟩⟩ := by
  simp [influxToVEH1, column, index, Run.bind, assertFloat64, xdob.ofFloat64, f32_0]

set_option maxRecDepth 4096 in
theorem f64mul_35000 : f64mul 0x40E1170000000000 oneFeetInMeters = 0x40C4D60000000000 := by
  decide

/-- C5: for every vehicle id and every result whose first point holds the altitude `a` (in
feet) in the column the converter reads, `influxToVEH1` returns a record whose
`lat_lon_ele[2]` is the single `float64` product of `a` and the constant 0.3048; for
`a = 35000.0` that product is `10668.0`; for a finite `a` the product is finite and within
half a unit in its last place of the exact product of `a` and the constant, which itself is
the `float64` nearest to 0.3048. -/
theorem influxToVEH1_altitude (airplaneId : Int) (name : String) (cols : List String)
    (t seq : Value) (a la lo hd : Nat) (extra : List Value) (more : List (List Value))
    (rest : List Series) :
    (∃ v, influxToVEH1 airplaneId
        (⟨name, cols,
          (t :: seq :: .float64 a :: .float64 la :: .float64 lo :: .float64 hd :: extra)
            :: more⟩ :: rest) = .ok v ∧
      v.lat_lon_ele.e2 = f64mul a oneFeetInMeters) ∧
    (∃ v, influxToVEH1 airplaneId
        (⟨name, cols,
          (t :: seq :: .float64 0x40E1170000000000 :: .float64 la :: .float64 lo
            :: .float64 hd :: extra) :: more⟩ :: rest) = .ok v ∧
      v.lat_lon_ele.e2 = 0x40C4D60000000000) ∧
    (binary64.expo a < 2047 →
      binary64.expo (f64mul a oneFeetInMeters) < 2047 ∧
      2 * |binary64.value (f64mul a oneFeetInMeters) -
          binary64.value a * binary64.value oneFeetInMeters|
        ≤ 2 ^ binary64.qexp (f64mul a oneFeetInMeters)) ∧
    2 * |binary64.value oneFeetInMeters - 3048 / 10000| < 1 / 2 ^ 54 := by
  refine ⟨⟨_, influxToVEH1_row _ _ _ _ _ _ _ _ _ _ _ _, rfl⟩, ?_,
    f64mul_oneFeetInMeters_spec a, oneFeetInMeters_value.2⟩
  refine ⟨⟨xint.ofInt airplaneId, ⟨la, lo, 0x40C4D60000000000⟩, ⟨xflt.ofFloat64 hd, 0, 0⟩,
    ⟨0, 0, 0⟩⟩, ?_, rfl⟩
  rw [influxToVEH1_row, f64mul_35000]

/-- C5 witness: the altitude 35000.0 ft is finite, and its product with the constant is
finite and within half a unit in the last place of the exact product. -/
theorem influxToVEH1_altitude_witness :
    binary64.expo 0x40E1170000000000 < 2047 ∧
    (binary64.expo (f64mul 0x40E1170000000000 oneFeetInMeters) < 2047 ∧
      2 * |binary64.value (f64mul 0x40E1170000000000 oneFeetInMeters) -
          binary64.value 0x40E1170000000000 * binary64.value oneFeetInMeters|
        ≤ 2 ^ binary64.qexp (f64mul 0x40E1170000000000 oneFeetInMeters)) :=
  have h : binary64.expo 0x40E1170000000000 < 2047 := by decide
  ⟨h, (influxToVEH1_altitude 42 "flight.ROF999" [] .nil .nil 0x40E1170000000000
    0x4047CD97F62B6AE8 0xC05E9541205BC01A 0x4070E00000000000 [] [] []).2.2.1 h⟩

/-- C9: the altitude gate is a no-op: for every vehicle id and every result, `influxToVEH1`
gives what the converter without the conditional gives, a panic included. -/
theorem influxToVEH1_gate_noop (airplaneId : Int) (res : InfluxResults) :
    influxToVEH1 airplaneId res = influxToVEH1_ungated airplaneId res := by
  unfold influxToVEH1 influxToVEH1_ungated
  simp

theorem xint_ofInt_range (n : Int) : -2 ^ 31 ≤ xint.ofInt n ∧ xint.ofInt n < 2 ^ 31 := by
  unfold xint.ofInt
  omega

theorem xint_ofInt_congr (n : Int) : (n - xint.ofInt n) % 2 ^ 32 = 0 := by
  unfold xint.ofInt
  omega

theorem xint_ofInt_id (n : Int) : xint.ofInt n = n ↔ (-2 ^ 31 ≤ n ∧ n < 2 ^ 31) := by
  unfold xint.ofInt
  omega

theorem influxToVEH1_id_map (airplaneId : Int) (res : InfluxResults) :
    influxToVEH1 airplaneId res =
      (influxToVEH1 0 res).map (fun v => { v with p := xint.ofInt airplaneId }) := by
  unfold influxToVEH1 Run.map
  cases h2 : column res 2 <;> simp [Run.bind]
  cases h3 : column res 3 <;> simp
  cases h4 : column res 4 <;> simp
  cases h5 : column res 5 <;> simp

theorem influxToVEH1_ok_p (airplaneId : Int) (res : InfluxResults) (v : VEH1)
    (h : influxToVEH1 airplaneId res = .ok v) : v.p = xint.ofInt airplaneId := by
  rw [influxToVEH1_id_map] at h
  unfold Run.map Run.bind at h
  cases h0 : influxToVEH1 0 res with
  | ok w =>
    rw [h0] at h
    simp only [Run.ok.injEq] at h
    rw [← h]
  | panic q =>
    rw [h0] at h
    cases h

set_option maxRecDepth 4096 in
theorem influxToVEH1_wraps :
    influxToVEH1 (2 ^ 32 + 5) [series_sample "flight.ROF999"] = .ok { veh1_sample with p := 5 } ∧
    influxToVEH1 (2 ^ 31) [series_sample "flight.ROF999"] =
      .ok { veh1_sample with p := -2 ^ 31 } ∧
    influxToVEH1 (-2 ^ 31 - 1) [series_sample "flight.ROF999"] =
      .ok { veh1_sample with p := 2 ^ 31 - 1 } := by
  decide

/-- C10: for every vehicle id and every result whose first point holds altitude, latitude,
longitude and heading in the columns the converter reads, `influxToVEH1` returns a record,
without any error, whose `p` is `xint(airplaneId)`; for an id in `[-2^31, 2^31)` that `p` is
the id itself, and in every case `p` lies in that range and differs from the id by a
multiple of `2^32` (the ids `2^32 + 5`, `2^31` and `-2^31 - 1` give 5, `-2^31` and
`2^31 - 1`). On any result at all, a returned record has `p = xint(airplaneId)`, and the id
never changes whether the converter succeeds. -/
theorem influxToVEH1_vehicle_id (airplaneId : Int) (name : String) (cols : List String)
    (t seq : Value) (a la lo hd : Nat) (extra : List Value) (more : List (List Value))
    (rest : List Series) (res : InfluxResults) :
    (∃ v, influxToVEH1 airplaneId
        (⟨name, cols,
          (t :: seq :: .float64 a :: .float64 la :: .float64 lo :: .float64 hd :: extra)
            :: more⟩ :: rest) = .ok v ∧
      v.p = xint.ofInt airplaneId) ∧
    ((-2 ^ 31 ≤ airplaneId ∧ airplaneId < 2 ^ 31) →
      ∃ v, influxToVEH1 airplaneId
        (⟨name, cols,
          (t :: seq :: .float64 a :: .float64 la :: .float64 lo :: .float64 hd :: extra)
            :: more⟩ :: rest) = .ok v ∧
      v.p = airplaneId) ∧
    (∀ v, influxToVEH1 airplaneId res = .ok v → v.p = xint.ofInt airplaneId) ∧
    influxToVEH1 airplaneId res =
      (influxToVEH1 0 res).map (fun v => { v with p := xint.ofInt airplaneId }) ∧
    (xint.ofInt airplaneId = airplaneId ↔ (-2 ^ 31 ≤ airplaneId ∧ airplaneId < 2 ^ 31)) ∧
    (-2 ^ 31 ≤ xint.ofInt airplaneId ∧ xint.ofInt airplaneId < 2 ^ 31) ∧
    (airplaneId - xint.ofInt airplaneId) % 2 ^ 32 = 0 ∧
    influxToVEH1 (2 ^ 32 + 5) [series_sample "flight.ROF999"] =
      .ok { veh1_sample with p := 5 } ∧
    influxToVEH1 (2 ^ 31) [series_sample "flight.ROF999"] =
      .ok { veh1_sample with p := -2 ^ 31 } ∧
    influxToVEH1 (-2 ^ 31 - 1) [series_sample "flight.ROF999"] =
      .ok { veh1_sample with p := 2 ^ 31 - 1 } := by
  refine ⟨⟨_, influxToVEH1_row _ _ _ _ _ _ _ _ _ _ _ _, rfl⟩, ?_,
    fun v h => influxToVEH1_ok_p airplaneId res v h, influxToVEH1_id_map _ _,
    xint_ofInt_id _, xint_ofInt_range _, xint_ofInt_congr _, influxToVEH1_wraps⟩
  intro hr
  exact ⟨_, influxToVEH1_row _ _ _ _ _ _ _ _ _ _ _ _, (xint_ofInt_id airplaneId).mpr hr⟩

set_option maxRecDepth 4096 in
/-- C10 witness: the id 42 is in range and the sample result is converted, so a record with
`p = 42` is returned for the sample row, and the record returned for the sample result has
`p = xint(42)`. -/
theorem influxToVEH1_vehicle_id_witness :
    ((-2 ^ 31 ≤ (42 : Int) ∧ (42 : Int) < 2 ^ 31) ∧
      ∃ v, influxToVEH1 42
        (⟨"flight.ROF999", [],
          (.nil :: .nil :: .float64 0x40E1170000000000 :: .float64 0x4047CD97F62B6AE8
            :: .float64 0xC05E9541205BC01A :: .float64 0x4070E00000000000 :: []) :: []⟩
          :: []) = .ok v ∧
        v.p = 42) ∧
    (influxToVEH1 42 [series_sample "flight.ROF999"] = .ok veh1_sample ∧
      veh1_sample.p = xint.ofInt 42) :=
  have hr : -2 ^ 31 ≤ (42 : Int) ∧ (42 : Int) < 2 ^ 31 := by decide
  have hs : influxToVEH1 42 [series_sample "flight.ROF999"] = .ok veh1_sample := by decide
  ⟨⟨hr, (influxToVEH1_vehicle_id 42 "flight.ROF999" [] .nil .nil 0x40E1170000000000
      0x4047CD97F62B6AE8 0xC05E9541205BC01A 0x4070E00000000000 [] [] []
      [series_sample "flight.ROF999"]).2.1 hr⟩,
    ⟨hs, (influxToVEH1_vehicle_id 42 "flight.ROF999" [] .nil .nil 0x40E1170000000000
      0x4047CD97F62B6AE8 0xC05E9541205BC01A 0x4070E00000000000 [] [] []
      [series_sample "flight.ROF999"]).2.2.1 veh1_sample hs⟩⟩

theorem getInfluxData_cons (s : Series) (rest : List Series) :
    getInfluxData (.ok (s :: rest)) =
      .returned (if rest = [] then [] else ["No series present?!"]) (s :: rest) := by
  cases rest <;> simp [getInfluxData, index]

theorem getInfluxData_nil :
    getInfluxData (.ok []) = .panicked ["No series present?!"] .indexOutOfRange := by
  simp [getInfluxData, index]

set_option maxRecDepth 4096 in
/-- C6, the code at the failing input: when the query succeeds with two series,
`getInfluxData` logs one line and returns both, and the converter builds the sample record
from the first of them. -/
theorem getInfluxData_two_series :
    getInfluxData (.ok [series_sample "flight.ROF999", series_sample "flight.ROF9990"]) =
      .returned ["No series present?!"]
        [series_sample "flight.ROF999", series_sample "flight.ROF9990"] ∧
    influxToVEH1 42 [series_sample "flight.ROF999", series_sample "flight.ROF9990"] =
      .ok veh1_sample := by
  decide

end XplaneFeeder
